import Mathlib

/-!
Verification of the MFRC522 I2C RFID driver's protocol core.

The driver talks to the reader chip through single-byte register reads and
writes.  We model the chip as an oracle `ChipEnv` that yields the byte
returned by the i-th register read (indexed by a global read counter and the
register address); register writes are recorded in an ordered log.  The
driver routines `toCard` (the command executor), `request`, `anticoll` and
the UID formatting of `readUID` are translated from `src/custom.ts`
statement by statement.
-/

namespace MFRC522

/-- The chip environment: `env i reg` is the raw value the chip yields for
the i-th register read overall when register `reg` is read; the bus returns
it as a byte (reduced mod 256 at the read site). -/
def ChipEnv : Type := Nat → Nat → Nat

/-- Bus state: how many register reads have happened so far, and the ordered
log of `(register, value)` writes. -/
structure BusState where
  reads : Nat
  log : List (Nat × Nat)
deriving DecidableEq

-- Command opcodes (src/custom.ts lines 56-62).
def PCD_IDLE : Nat := 0x00
def PCD_AUTHENT : Nat := 0x0E
def PCD_TRANSCEIVE : Nat := 0x0C

-- Card commands (src/custom.ts lines 64-66).
def PICC_REQIDL : Nat := 0x26
def PICC_ANTICOLL : Nat := 0x93

-- Register addresses (src/custom.ts lines 80-93).
def CommandReg : Nat := 0x01
def ComIEnReg : Nat := 0x02
def ComIrqReg : Nat := 0x04
def ErrorReg : Nat := 0x06
def FIFODataReg : Nat := 0x09
def FIFOLevelReg : Nat := 0x0A
def ControlReg : Nat := 0x0C
def BitFramingReg : Nat := 0x0D

/-- `readRegister` (src/custom.ts line 137): returns the next oracle byte for
the register and advances the read counter. -/
def readRegister (env : ChipEnv) (reg : Nat) (s : BusState) : Nat × BusState :=
  (env s.reads reg % 256, ⟨s.reads + 1, s.log⟩)

/-- `writeRegister` (src/custom.ts line 127): appends the write to the log. -/
def writeRegister (reg value : Nat) (s : BusState) : BusState :=
  ⟨s.reads, s.log ++ [(reg, value)]⟩

/-- `setRegisterBitMask` (src/custom.ts line 145): read-modify-write OR. -/
def setRegisterBitMask (env : ChipEnv) (reg mask : Nat) (s : BusState) : BusState :=
  let p := readRegister env reg s
  writeRegister reg (p.1 ||| mask) p.2

/-- `clearRegisterBitMask` (src/custom.ts line 153): read-modify-write AND
with the 32-bit complement of the mask (TypeScript `~mask`). -/
def clearRegisterBitMask (env : ChipEnv) (reg mask : Nat) (s : BusState) : BusState :=
  let p := readRegister env reg s
  writeRegister reg (p.1 &&& (0xFFFFFFFF ^^^ mask)) p.2

/-- Interrupt-enable mask selected by command (src/custom.ts lines 195-201). -/
def irqEnFor (command : Nat) : Nat :=
  if command = PCD_AUTHENT then 0x12
  else if command = PCD_TRANSCEIVE then 0x77
  else 0x00

/-- Completion wait mask selected by command (src/custom.ts lines 195-201). -/
def waitIRqFor (command : Nat) : Nat :=
  if command = PCD_AUTHENT then 0x10
  else if command = PCD_TRANSCEIVE then 0x30
  else 0x00

/-- The FIFO write loop of `toCard` (src/custom.ts lines 210-212): one
register write per payload byte, in order. -/
def writeFifoData : List Nat → BusState → BusState
  | [], s => s
  | d :: rest, s => writeFifoData rest (writeRegister FIFODataReg d s)

/-- The FIFO read loop of `toCard` (src/custom.ts lines 260-262): reads
`k` bytes from the FIFO data register, in order. -/
def readFifoData (env : ChipEnv) : Nat → BusState → List Nat × BusState
  | 0, s => ([], s)
  | k + 1, s =>
    let p := readRegister env FIFODataReg s
    let q := readFifoData env k p.2
    (p.1 :: q.1, q.2)

/-- The completion-poll loop of `toCard` (src/custom.ts lines 221-231):
`i` counts down from 2000; each iteration reads `ComIrqReg` and breaks as
soon as a wait-mask bit or the timer bit 0x01 is set.  Returns the loop
counter at exit, the last value read, and the bus state. -/
def pollLoop (env : ChipEnv) (waitIRq : Nat) : Nat → Nat → BusState → Nat × Nat × BusState
  | 0, n, s => (0, n, s)
  | i + 1, _, s =>
    let p := readRegister env ComIrqReg s
    if p.1 &&& waitIRq ≠ 0 then (i + 1, p.1, p.2)
    else if p.1 &&& 0x01 ≠ 0 then (i + 1, p.1, p.2)
    else pollLoop env waitIRq i p.1 p.2

/-- Result record of `toCard` (src/custom.ts line 188): `backLen` is an
integer because TypeScript computes `(n - 1) * 8 + lastBits`, which is
negative when the chip reports a FIFO level of 0 with partial last bits. -/
structure ToCardResult where
  status : Nat
  data : List Nat
  backLen : Int
deriving DecidableEq

/-- Setup phase of `toCard` (src/custom.ts lines 203-218): arm interrupts,
clear the pending-irq bit, flush the FIFO, go Idle, write the payload into
the FIFO, issue the command, and for Transceive set StartSend. -/
def toCardSetup (env : ChipEnv) (command : Nat) (sendData : List Nat) (s0 : BusState) : BusState :=
  let s1 := writeRegister ComIEnReg (irqEnFor command ||| 0x80) s0
  let s2 := clearRegisterBitMask env ComIrqReg 0x80 s1
  let s3 := setRegisterBitMask env FIFOLevelReg 0x80 s2
  let s4 := writeRegister CommandReg PCD_IDLE s3
  let s5 := writeFifoData sendData s4
  let s6 := writeRegister CommandReg command s5
  if command = PCD_TRANSCEIVE then setRegisterBitMask env BitFramingReg 0x80 s6 else s6

/-- Completion phase of `toCard` (src/custom.ts lines 233-271): `i` and `n`
are the poll loop's exit counter and last `ComIrqReg` value.  On exhaustion
(`i = 0`) or error bits, status 2 with no data; otherwise status 0 (or 1
when the captured irq value has the enabled timer bit), and for Transceive
the FIFO is drained: `backLen` from the raw reported level and the valid-bit
count, then the read count clamped to [1,16]. -/
def toCardFinish (env : ChipEnv) (command irqEn : Nat) (i n : Nat) (s8 : BusState) :
    ToCardResult × BusState :=
  if i ≠ 0 then
    let pe := readRegister env ErrorReg s8
    if pe.1 &&& 0x1B = 0 then
      let status := if n &&& irqEn &&& 0x01 ≠ 0 then 1 else 0
      if command = PCD_TRANSCEIVE then
        let pn := readRegister env FIFOLevelReg pe.2
        let pc := readRegister env ControlReg pn.2
        let lastBits := pc.1 &&& 0x07
        let backLen : Int :=
          if lastBits ≠ 0 then ((pn.1 : Int) - 1) * 8 + (lastBits : Int)
          else (pn.1 : Int) * 8
        let n1 := if pn.1 = 0 then 1 else pn.1
        let n2 := if n1 > 16 then 16 else n1
        let pd := readFifoData env n2 pc.2
        (⟨status, pd.1, backLen⟩, pd.2)
      else
        (⟨status, [], 0⟩, pe.2)
    else
      (⟨2, [], 0⟩, pe.2)
  else
    (⟨2, [], 0⟩, s8)

/-- `toCard` (src/custom.ts lines 188-272): the command executor. -/
def toCard (env : ChipEnv) (command : Nat) (sendData : List Nat) (s0 : BusState) :
    ToCardResult × BusState :=
  let p := pollLoop env (waitIRqFor command) 2000 0 (toCardSetup env command sendData s0)
  toCardFinish env command (irqEnFor command) p.1 p.2.1 p.2.2

/-- Result record of `request` (src/custom.ts line 277): `cardType` models
TypeScript `result.data[0]`, which is `undefined` (here `none`) when the
executor returned no bytes. -/
structure RequestResult where
  status : Nat
  cardType : Option Nat
deriving DecidableEq

/-- `request` (src/custom.ts lines 277-292): short-frame bit framing, one
Transceive with the request mode byte, success iff the executor did not
fail with status 2 and exactly 16 bits came back. -/
def request (env : ChipEnv) (reqMode : Nat) (s0 : BusState) : RequestResult × BusState :=
  let s1 := writeRegister BitFramingReg 0x07 s0
  let p := toCard env PCD_TRANSCEIVE [reqMode] s1
  let status := if p.1.status ≠ 2 ∧ p.1.backLen = 0x10 then 0 else 2
  (⟨status, p.1.data.head?⟩, p.2)

/-- Result record of `anticoll` (src/custom.ts line 297). -/
structure AnticollResult where
  status : Nat
  uid : List Nat
deriving DecidableEq

/-- `anticoll` (src/custom.ts lines 297-321): full-byte framing, one
Transceive with `[0x93, 0x20]`; when the executor returns status 0 and
exactly 5 bytes, the first 4 bytes are pushed into `uid` and status becomes
0 only when their XOR equals the 5th byte. -/
def anticoll (env : ChipEnv) (s0 : BusState) : AnticollResult × BusState :=
  let s1 := writeRegister BitFramingReg 0x00 s0
  let p := toCard env PCD_TRANSCEIVE [PICC_ANTICOLL, 0x20] s1
  let d := p.1.data
  if p.1.status = 0 ∧ d.length = 5 then
    let uid := [d.getD 0 0, d.getD 1 0, d.getD 2 0, d.getD 3 0]
    let bcc := d.getD 0 0 ^^^ d.getD 1 0 ^^^ d.getD 2 0 ^^^ d.getD 3 0
    let status := if bcc = d.getD 4 0 then 0 else 2
    (⟨status, uid⟩, p.2)
  else
    (⟨2, []⟩, p.2)

/-- The UID formatting loop of `readUID` (src/custom.ts lines 41-47),
with TypeScript strings embedded as character lists: for each byte, append
"0" when the byte is below 16, then append the byte's decimal
`toString()` digits; finally `toUpperCase()` the whole string. -/
def uidToString (uid : List Nat) : List Char :=
  (uid.foldl (fun hex byte =>
    (hex ++ (if byte < 16 then ['0'] else [])) ++ (Nat.repr byte).data) []).map Char.toUpper

/-- Modelled from the spec: the hexadecimal rendering of an identifier that
`readUID`'s comment ("Convert UID to hex string") promises — two uppercase
hexadecimal digits per byte, in order.  This is spec-side only, for
comparison against `uidToString`. -/
def hexDigit (n : Nat) : Char :=
  if n < 10 then Char.ofNat (48 + n) else Char.ofNat (55 + n)

/-- Modelled from the spec: uppercase hexadecimal rendering, two digits per
byte. -/
def hexRender : List Nat → List Char
  | [] => []
  | b :: rest => hexDigit (b / 16) :: hexDigit (b % 16) :: hexRender rest

end MFRC522

namespace MFRC522

/-- The poll loop is quiet at read index `idx`: the chip byte read there has
neither a wait-mask bit nor the timer bit 0x01 set. -/
def quietAt (env : ChipEnv) (w idx : Nat) : Prop :=
  (env idx ComIrqReg % 256) &&& w = 0 ∧ (env idx ComIrqReg % 256) &&& 0x01 = 0

instance (env : ChipEnv) (w idx : Nat) : Decidable (quietAt env w idx) := by
  unfold quietAt; infer_instance

theorem readFifoData_length (env : ChipEnv) :
    ∀ (k : Nat) (s : BusState), ((readFifoData env k s).1).length = k := by
  intro k
  induction k with
  | zero => intro s; rfl
  | succ k ih => intro s; simp [readFifoData, ih]

theorem readFifoData_log (env : ChipEnv) :
    ∀ (k : Nat) (s : BusState), ((readFifoData env k s).2).log = s.log := by
  intro k
  induction k with
  | zero => intro s; rfl
  | succ k ih => intro s; simp [readFifoData, readRegister, ih]

theorem writeFifoData_log :
    ∀ (d : List Nat) (s : BusState),
      (writeFifoData d s).log = s.log ++ d.map (fun b => (FIFODataReg, b)) := by
  intro d
  induction d with
  | nil => intro s; simp [writeFifoData]
  | cons b rest ih => intro s; simp [writeFifoData, writeRegister, ih]

theorem writeFifoData_reads :
    ∀ (d : List Nat) (s : BusState), (writeFifoData d s).reads = s.reads := by
  intro d
  induction d with
  | nil => intro s; rfl
  | cons b rest ih => intro s; simp [writeFifoData, writeRegister, ih]

theorem pollLoop_log (env : ChipEnv) (w : Nat) :
    ∀ (f n : Nat) (s : BusState), ((pollLoop env w f n s).2.2).log = s.log := by
  intro f
  induction f with
  | zero => intro n s; rfl
  | succ f ih =>
    intro n s
    simp only [pollLoop, readRegister]
    split
    · rfl
    · split
      · rfl
      · exact ih _ _

theorem pollLoop_reads_le (env : ChipEnv) (w : Nat) :
    ∀ (f n : Nat) (s : BusState), ((pollLoop env w f n s).2.2).reads ≤ s.reads + f := by
  intro f
  induction f with
  | zero => intro n s; simp [pollLoop]
  | succ f ih =>
    intro n s
    simp only [pollLoop, readRegister]
    split
    · simp
    · split
      · simp
      · have h := ih (env s.reads ComIrqReg % 256) ⟨s.reads + 1, s.log⟩
        simp at h ⊢
        omega

theorem pollLoop_quiet (env : ChipEnv) (w : Nat) :
    ∀ (f n : Nat) (s : BusState),
      (∀ k, k < f → quietAt env w (s.reads + k)) →
      (pollLoop env w f n s).1 = 0 ∧ ((pollLoop env w f n s).2.2).reads = s.reads + f := by
  intro f
  induction f with
  | zero => intro n s _; exact ⟨rfl, rfl⟩
  | succ f ih =>
    intro n s hq
    have h0 := hq 0 (Nat.succ_pos f)
    simp only [Nat.add_zero] at h0
    simp only [pollLoop, readRegister]
    rw [if_neg, if_neg]
    · have := ih (env s.reads ComIrqReg % 256) ⟨s.reads + 1, s.log⟩
        (fun k hk => by
          have := hq (k + 1) (Nat.succ_lt_succ hk)
          simpa [Nat.add_assoc, Nat.add_comm 1 k] using this)
      simp only at this
      refine ⟨this.1, ?_⟩
      rw [this.2]
      omega
    · simp [h0.2]
    · simp [h0.1]

theorem pollLoop_break (env : ChipEnv) (w : Nat) :
    ∀ (f k n : Nat) (s : BusState), k < f →
      (∀ j, j < k → quietAt env w (s.reads + j)) →
      ¬ quietAt env w (s.reads + k) →
      ((pollLoop env w f n s).2.2).reads = s.reads + k + 1 ∧
        (pollLoop env w f n s).1 = f - k := by
  intro f
  induction f with
  | zero => intro k n s hk; omega
  | succ f ih =>
    intro k n s hk hq htrig
    match k with
    | 0 =>
      simp only [Nat.add_zero] at htrig
      simp only [pollLoop, readRegister]
      by_cases h1 : (env s.reads ComIrqReg % 256) &&& w ≠ 0
      · rw [if_pos h1]; exact ⟨rfl, rfl⟩
      · rw [if_neg h1]
        by_cases h2 : (env s.reads ComIrqReg % 256) &&& 0x01 ≠ 0
        · rw [if_pos h2]; exact ⟨rfl, rfl⟩
        · exact absurd ⟨not_not.mp h1, not_not.mp h2⟩ htrig
    | k + 1 =>
      have h0 := hq 0 (Nat.succ_pos k)
      simp only [Nat.add_zero] at h0
      simp only [pollLoop, readRegister]
      rw [if_neg (by simp [h0.1]), if_neg (by simp [h0.2])]
      have := ih k (env s.reads ComIrqReg % 256) ⟨s.reads + 1, s.log⟩
        (Nat.lt_of_succ_lt_succ hk)
        (fun j hj => by
          have := hq (j + 1) (Nat.succ_lt_succ hj)
          simpa [Nat.add_assoc, Nat.add_comm 1 j] using this)
        (by
          simp only
          have : s.reads + 1 + k = s.reads + (k + 1) := by omega
          rw [this]
          exact htrig)
      simp only at this
      refine ⟨by rw [this.1]; omega, by rw [this.2]; omega⟩

end MFRC522

namespace MFRC522

theorem toCardFinish_zero (env : ChipEnv) (c e n : Nat) (s : BusState) :
    toCardFinish env c e 0 n s = (⟨2, [], 0⟩, s) := by
  simp [toCardFinish]

theorem toCardFinish_err (env : ChipEnv) (c e i n : Nat) (s : BusState)
    (hi : i ≠ 0) (herr : (env s.reads ErrorReg % 256) &&& 0x1B ≠ 0) :
    toCardFinish env c e i n s = (⟨2, [], 0⟩, ⟨s.reads + 1, s.log⟩) := by
  simp [toCardFinish, readRegister, hi, herr]

theorem toCardFinish_other (env : ChipEnv) (c e i n : Nat) (s : BusState)
    (hi : i ≠ 0) (herr : (env s.reads ErrorReg % 256) &&& 0x1B = 0)
    (hc : c ≠ PCD_TRANSCEIVE) :
    toCardFinish env c e i n s =
      (⟨if n &&& e &&& 0x01 ≠ 0 then 1 else 0, [], 0⟩, ⟨s.reads + 1, s.log⟩) := by
  simp [toCardFinish, readRegister, hi, herr, hc]

theorem toCardFinish_transceive (env : ChipEnv) (e i n : Nat) (s : BusState)
    (hi : i ≠ 0) (herr : (env s.reads ErrorReg % 256) &&& 0x1B = 0)
    (fifoN v cnt : Nat)
    (hn : fifoN = env (s.reads + 1) FIFOLevelReg % 256)
    (hv : v = (env (s.reads + 2) ControlReg % 256) &&& 0x07)
    (hcnt : cnt = if (if fifoN = 0 then 1 else fifoN) > 16 then 16
      else (if fifoN = 0 then 1 else fifoN)) :
    toCardFinish env PCD_TRANSCEIVE e i n s =
      (⟨if n &&& e &&& 0x01 ≠ 0 then 1 else 0,
        (readFifoData env cnt ⟨s.reads + 3, s.log⟩).1,
        if v ≠ 0 then ((fifoN : Int) - 1) * 8 + (v : Int) else (fifoN : Int) * 8⟩,
       (readFifoData env cnt ⟨s.reads + 3, s.log⟩).2) := by
  subst hn hv hcnt
  simp [toCardFinish, readRegister, hi, herr, Nat.add_assoc]

theorem toCardFinish_log (env : ChipEnv) (c e i n : Nat) (s : BusState) :
    ((toCardFinish env c e i n s).2).log = s.log := by
  by_cases hi : i = 0
  · subst hi; rw [toCardFinish_zero]
  · by_cases herr : (env s.reads ErrorReg % 256) &&& 0x1B = 0
    · by_cases hc : c = PCD_TRANSCEIVE
      · subst hc
        rw [toCardFinish_transceive env e i n s hi herr _ _ _ rfl rfl rfl]
        exact readFifoData_log env _ _
      · rw [toCardFinish_other env c e i n s hi herr hc]
    · rw [toCardFinish_err env c e i n s hi herr]

theorem toCard_log (env : ChipEnv) (c : Nat) (d : List Nat) (s0 : BusState) :
    ((toCard env c d s0).2).log = (toCardSetup env c d s0).log := by
  unfold toCard
  rw [toCardFinish_log, pollLoop_log]

theorem toCardSetup_log (env : ChipEnv) (c : Nat) (d : List Nat) (s0 : BusState) :
    (toCardSetup env c d s0).log =
      s0.log ++
        ([(ComIEnReg, irqEnFor c ||| 0x80),
          (ComIrqReg, (env s0.reads ComIrqReg % 256) &&& (0xFFFFFFFF ^^^ 0x80)),
          (FIFOLevelReg, (env (s0.reads + 1) FIFOLevelReg % 256) ||| 0x80),
          (CommandReg, PCD_IDLE)] ++
         d.map (fun b => (FIFODataReg, b)) ++
         [(CommandReg, c)] ++
         (if c = PCD_TRANSCEIVE then
            [(BitFramingReg, (env (s0.reads + 2) BitFramingReg % 256) ||| 0x80)]
          else [])) := by
  by_cases hc : c = PCD_TRANSCEIVE <;>
    simp [toCardSetup, setRegisterBitMask, clearRegisterBitMask, readRegister, writeRegister,
      writeFifoData_log, writeFifoData_reads, hc, Nat.add_assoc]

end MFRC522

namespace MFRC522

-- Concrete chip oracles used by witnesses and counterexamples.

/-- A chip that never raises any interrupt bit: every read returns 0. -/
def envQuiet : ChipEnv := fun _ _ => 0

/-- A chip whose interrupt register always reads 0x01: only the timer bit,
never a wait-mask bit of Transceive (0x30) or Authent (0x10). -/
def envTimer : ChipEnv := fun _ _ => 0x01

/-- A chip that completes a Transceive at once and then reports a FIFO level
of 17 with no partial bits (reads, in order: setup x3, poll, error, level,
control, then FIFO data). -/
def envLevel17 : ChipEnv := fun i _ => List.getD [0, 0, 0, 0x30, 0, 17, 0] i 0

/-- A chip that completes a Transceive at once, reports 5 FIFO bytes with
3 valid bits in the last byte. -/
def envPartial : ChipEnv := fun i _ => List.getD [0, 0, 0, 0x30, 0, 5, 3] i 0

/-- A chip whose FIFO level register always reads 5 and whose interrupt
register always reads 0x30 (immediate Transceive completion). -/
def envLevel5 : ChipEnv := fun _ reg =>
  if reg = FIFOLevelReg then 5 else if reg = ComIrqReg then 0x30 else 0

/-- A chip that answers an anti-collision Transceive with the 5 bytes
0x12 0x34 0x56 0x78 0x00 — a bad checksum byte (the XOR of the first four
is 0x08). -/
def envBcc : ChipEnv :=
  fun i _ => List.getD [0, 0, 0, 0x30, 0, 5, 0, 0x12, 0x34, 0x56, 0x78, 0x00] i 0

/-- A chip that answers an anti-collision Transceive with the 5 bytes
0x12 0x34 0x56 0x78 0x08 — a valid checksum byte. -/
def envUid : ChipEnv :=
  fun i _ => List.getD [0, 0, 0, 0x30, 0, 5, 0, 0x12, 0x34, 0x56, 0x78, 0x08] i 0

/-- C7: if the completion-poll loop of the command executor exits with zero
iterations remaining, the outcome has status 2 (`ProtocolError`) no matter
what the error register holds, and no response bytes are read. -/
theorem executor_timeout_protocol_error (env : ChipEnv) (c : Nat) (d : List Nat) (s0 : BusState)
    (h : (pollLoop env (waitIRqFor c) 2000 0 (toCardSetup env c d s0)).1 = 0) :
    (toCard env c d s0).1.status = 2 ∧ (toCard env c d s0).1.data = [] := by
  simp only [toCard]
  rw [h, toCardFinish_zero]
  exact ⟨rfl, rfl⟩

/-- Witness for C7: against a chip that never sets any interrupt bit, the
poll loop exhausts its 2000 iterations and the executor reports status 2
with no data. -/
theorem executor_timeout_protocol_error_witness :
    (pollLoop envQuiet (waitIRqFor PCD_TRANSCEIVE) 2000 0
        (toCardSetup envQuiet PCD_TRANSCEIVE [PICC_REQIDL] ⟨0, []⟩)).1 = 0 ∧
      (toCard envQuiet PCD_TRANSCEIVE [PICC_REQIDL] ⟨0, []⟩).1.status = 2 ∧
      (toCard envQuiet PCD_TRANSCEIVE [PICC_REQIDL] ⟨0, []⟩).1.data = [] := by
  have h : (pollLoop envQuiet (waitIRqFor PCD_TRANSCEIVE) 2000 0
      (toCardSetup envQuiet PCD_TRANSCEIVE [PICC_REQIDL] ⟨0, []⟩)).1 = 0 :=
    (pollLoop_quiet envQuiet (waitIRqFor PCD_TRANSCEIVE) 2000 0 _
      (fun k _ => by simp [quietAt, envQuiet])).1
  exact ⟨h, executor_timeout_protocol_error envQuiet PCD_TRANSCEIVE [PICC_REQIDL] ⟨0, []⟩ h⟩

/-- C8: for every payload, the command executor's write log is: three
mask/interrupt writes, the command register set to Idle, every payload byte
written to the FIFO data register in payload order, the command register set
to the requested command, and (for Transceive only) the start-send write —
so exactly `sendData.length` FIFO-data writes happen, all of them between
the Idle write and the command write. -/
theorem executor_fifo_write_order (env : ChipEnv) (c : Nat) (d : List Nat) (s0 : BusState) :
    ((toCard env c d s0).2).log =
      s0.log ++
        ([(ComIEnReg, irqEnFor c ||| 0x80),
          (ComIrqReg, (env s0.reads ComIrqReg % 256) &&& (0xFFFFFFFF ^^^ 0x80)),
          (FIFOLevelReg, (env (s0.reads + 1) FIFOLevelReg % 256) ||| 0x80),
          (CommandReg, PCD_IDLE)] ++
         d.map (fun b => (FIFODataReg, b)) ++
         [(CommandReg, c)] ++
         (if c = PCD_TRANSCEIVE then
            [(BitFramingReg, (env (s0.reads + 2) BitFramingReg % 256) ||| 0x80)]
          else [])) := by
  rw [toCard_log, toCardSetup_log]

/-- C6 (amended): the completion-poll loop always stops within 2000
iterations (one `ComIrqReg` read per iteration); it runs for exactly 2000
iterations when neither a wait-mask bit nor the timer bit 0x01 ever appears
in the readings; and it stops right after the first reading in which a
wait-mask bit or the timer bit is set. -/
theorem poll_loop_iteration_budget (env : ChipEnv) (w : Nat) (s : BusState) :
    ((pollLoop env w 2000 0 s).2.2).reads ≤ s.reads + 2000 ∧
      ((∀ k, k < 2000 → quietAt env w (s.reads + k)) →
        (pollLoop env w 2000 0 s).1 = 0 ∧
          ((pollLoop env w 2000 0 s).2.2).reads = s.reads + 2000) ∧
      (∀ k, k < 2000 → (∀ j, j < k → quietAt env w (s.reads + j)) →
        ¬ quietAt env w (s.reads + k) →
        ((pollLoop env w 2000 0 s).2.2).reads = s.reads + k + 1 ∧
          (pollLoop env w 2000 0 s).1 ≠ 0) := by
  refine ⟨pollLoop_reads_le env w 2000 0 s, ?_, ?_⟩
  · intro hq
    exact pollLoop_quiet env w 2000 0 s hq
  · intro k hk hq htrig
    have h := pollLoop_break env w 2000 k 0 s hk hq htrig
    exact ⟨h.1, by rw [h.2]; omega⟩

/-- Counterexample to C6 as stated: against a chip whose interrupt register
always reads 0x01, the Transceive wait-mask bits (0x30) never appear in any
reading, yet the loop stops after a single iteration (the timer bit), not
after 2000. -/
theorem poll_loop_iteration_budget_counterexample :
    (∀ k, (envTimer k ComIrqReg % 256) &&& 0x30 = 0) ∧
      ((pollLoop envTimer 0x30 2000 0 ⟨0, []⟩).2.2).reads = 1 ∧
      (1 : Nat) ≠ 2000 := by
  exact ⟨fun k => by simp [envTimer], by decide, by decide⟩

/-- C3: on the command executor's Transceive success path (poll loop did not
exhaust, error bits clear), with `fifoN` the chip-reported FIFO byte count
and `v` the valid-bit count (low 3 bits of the control register), the
returned bit length is `fifoN*8` when `v = 0` and `(fifoN-1)*8 + v`
otherwise, and the number of bytes read from the FIFO — the length of the
returned data — is the reported count clamped into [1,16]. -/
theorem transceive_backlen_formula (env : ChipEnv) (d : List Nat) (s0 : BusState)
    (R fifoN v : Nat)
    (hpoll : (pollLoop env (waitIRqFor PCD_TRANSCEIVE) 2000 0
        (toCardSetup env PCD_TRANSCEIVE d s0)).1 ≠ 0)
    (hR : R = ((pollLoop env (waitIRqFor PCD_TRANSCEIVE) 2000 0
        (toCardSetup env PCD_TRANSCEIVE d s0)).2.2).reads)
    (herr : (env R ErrorReg % 256) &&& 0x1B = 0)
    (hn : fifoN = env (R + 1) FIFOLevelReg % 256)
    (hv : v = (env (R + 2) ControlReg % 256) &&& 0x07) :
    (toCard env PCD_TRANSCEIVE d s0).1.backLen =
        (if v = 0 then (fifoN : Int) * 8 else ((fifoN : Int) - 1) * 8 + (v : Int)) ∧
      (toCard env PCD_TRANSCEIVE d s0).1.data.length =
        (if fifoN = 0 then 1 else if fifoN > 16 then 16 else fifoN) ∧
      1 ≤ (toCard env PCD_TRANSCEIVE d s0).1.data.length ∧
      (toCard env PCD_TRANSCEIVE d s0).1.data.length ≤ 16 := by
  subst hR hn hv
  unfold toCard
  rw [toCardFinish_transceive env (irqEnFor PCD_TRANSCEIVE) _ _ _ hpoll herr _ _ _ rfl rfl rfl]
  simp only [readFifoData_length]
  refine ⟨?_, ?_, ?_, ?_⟩
  · by_cases hv0 : (env (((pollLoop env (waitIRqFor PCD_TRANSCEIVE) 2000 0
        (toCardSetup env PCD_TRANSCEIVE d s0)).2.2).reads + 2) ControlReg % 256) &&& 0x07 = 0 <;>
      simp [hv0]
  · split_ifs <;> omega
  · split_ifs <;> omega
  · split_ifs <;> omega

end MFRC522

namespace MFRC522

/-- Witness for C3: a chip that completes at once and reports 5 FIFO bytes
with 3 valid bits in the last byte yields backLen (5-1)*8+3 = 35 and a
5-byte read. -/
theorem transceive_backlen_formula_witness :
    (toCard envPartial PCD_TRANSCEIVE [PICC_REQIDL] ⟨0, []⟩).1.backLen =
        (if (3 : Nat) = 0 then (5 : Int) * 8 else ((5 : Int) - 1) * 8 + ((3 : Nat) : Int)) ∧
      (toCard envPartial PCD_TRANSCEIVE [PICC_REQIDL] ⟨0, []⟩).1.data.length =
        (if (5 : Nat) = 0 then 1 else if (5 : Nat) > 16 then 16 else 5) ∧
      1 ≤ (toCard envPartial PCD_TRANSCEIVE [PICC_REQIDL] ⟨0, []⟩).1.data.length ∧
      (toCard envPartial PCD_TRANSCEIVE [PICC_REQIDL] ⟨0, []⟩).1.data.length ≤ 16 :=
  transceive_backlen_formula envPartial [PICC_REQIDL] ⟨0, []⟩ 4 5 3
    (by decide) (by decide) (by decide) (by decide) (by decide)

/-- Counterexample to C4 as stated: when the chip reports a FIFO level of 17
(more than the 16-byte read cap), the executor returns backLen = 17*8 = 136
but only 16 data bytes, so `bits <= bytes.length * 8` fails.  The invariant
does not hold for every possible sequence of chip register readings. -/
theorem exchange_bits_invariant_counterexample :
    ¬ ((toCard envLevel17 PCD_TRANSCEIVE [PICC_REQIDL] ⟨0, []⟩).1.backLen ≤
        ((toCard envLevel17 PCD_TRANSCEIVE [PICC_REQIDL] ⟨0, []⟩).1.data.length : Int) * 8) := by
  decide

/-- C4 (amended): every ExchangeResult satisfies `bits <= bytes.length * 8`,
and `bits > (bytes.length - 1) * 8` when the response is non-empty, provided
every FIFO-level reading the chip can produce is in the range [1,16]; for
arbitrary readings (a reported 0, or a count above 16) the invariant can
fail. -/
theorem exchange_bits_invariant_amended (env : ChipEnv) (c : Nat) (d : List Nat) (s0 : BusState)
    (hfifo : ∀ j, 1 ≤ env j FIFOLevelReg % 256 ∧ env j FIFOLevelReg % 256 ≤ 16) :
    (toCard env c d s0).1.backLen ≤ ((toCard env c d s0).1.data.length : Int) * 8 ∧
      ((toCard env c d s0).1.data ≠ [] →
        (((toCard env c d s0).1.data.length : Int) - 1) * 8 < (toCard env c d s0).1.backLen) := by
  simp only [toCard]
  by_cases hi : (pollLoop env (waitIRqFor c) 2000 0 (toCardSetup env c d s0)).1 = 0
  · rw [hi, toCardFinish_zero]
    exact ⟨by simp, fun h => absurd rfl h⟩
  · by_cases herr :
      (env ((pollLoop env (waitIRqFor c) 2000 0 (toCardSetup env c d s0)).2.2).reads
        ErrorReg % 256) &&& 0x1B = 0
    · by_cases hc : c = PCD_TRANSCEIVE
      · subst hc
        rw [toCardFinish_transceive env (irqEnFor PCD_TRANSCEIVE) _ _ _ hi herr _ _ _ rfl rfl rfl]
        simp only [readFifoData_length]
        obtain ⟨h1, h16⟩ :=
          hfifo (((pollLoop env (waitIRqFor PCD_TRANSCEIVE) 2000 0
            (toCardSetup env PCD_TRANSCEIVE d s0)).2.2).reads + 1)
        have hv7 : (env (((pollLoop env (waitIRqFor PCD_TRANSCEIVE) 2000 0
            (toCardSetup env PCD_TRANSCEIVE d s0)).2.2).reads + 2) ControlReg % 256) &&& 0x07 ≤ 7 :=
          Nat.and_le_right
        constructor
        · split_ifs <;> push_cast <;> omega
        · intro _
          split_ifs <;> push_cast <;> omega
      · rw [toCardFinish_other env c (irqEnFor c) _ _ _ hi herr hc]
        exact ⟨by simp, fun h => absurd rfl h⟩
    · rw [toCardFinish_err env c (irqEnFor c) _ _ _ hi herr]
      exact ⟨by simp, fun h => absurd rfl h⟩

/-- Witness for C4 (amended): a chip whose FIFO level register always reads
5 satisfies the bit-length invariant. -/
theorem exchange_bits_invariant_amended_witness :
    (toCard envLevel5 PCD_TRANSCEIVE [PICC_REQIDL] ⟨0, []⟩).1.backLen ≤
        ((toCard envLevel5 PCD_TRANSCEIVE [PICC_REQIDL] ⟨0, []⟩).1.data.length : Int) * 8 ∧
      ((toCard envLevel5 PCD_TRANSCEIVE [PICC_REQIDL] ⟨0, []⟩).1.data ≠ [] →
        (((toCard envLevel5 PCD_TRANSCEIVE [PICC_REQIDL] ⟨0, []⟩).1.data.length : Int) - 1) * 8 <
          (toCard envLevel5 PCD_TRANSCEIVE [PICC_REQIDL] ⟨0, []⟩).1.backLen) :=
  exchange_bits_invariant_amended envLevel5 PCD_TRANSCEIVE [PICC_REQIDL] ⟨0, []⟩
    (fun j => by simp [envLevel5])

end MFRC522

namespace MFRC522

theorem toCard_transceive_cases (env : ChipEnv) (d : List Nat) (s0 : BusState) :
    ((toCard env PCD_TRANSCEIVE d s0).1.status = 2 →
        (toCard env PCD_TRANSCEIVE d s0).1.data = [] ∧
          (toCard env PCD_TRANSCEIVE d s0).1.backLen = 0) ∧
      ((toCard env PCD_TRANSCEIVE d s0).1.status ≠ 2 →
        1 ≤ (toCard env PCD_TRANSCEIVE d s0).1.data.length ∧
          (toCard env PCD_TRANSCEIVE d s0).1.data.length ≤ 16) := by
  simp only [toCard]
  by_cases hi : (pollLoop env (waitIRqFor PCD_TRANSCEIVE) 2000 0
      (toCardSetup env PCD_TRANSCEIVE d s0)).1 = 0
  · rw [hi, toCardFinish_zero]
    exact ⟨fun _ => ⟨rfl, rfl⟩, fun h => absurd rfl h⟩
  · by_cases herr :
      (env ((pollLoop env (waitIRqFor PCD_TRANSCEIVE) 2000 0
        (toCardSetup env PCD_TRANSCEIVE d s0)).2.2).reads ErrorReg % 256) &&& 0x1B = 0
    · rw [toCardFinish_transceive env (irqEnFor PCD_TRANSCEIVE) _ _ _ hi herr _ _ _ rfl rfl rfl]
      simp only [readFifoData_length]
      constructor
      · intro h
        split at h <;> simp_all
      · intro _
        constructor <;> split_ifs <;> omega
    · rw [toCardFinish_err env PCD_TRANSCEIVE (irqEnFor PCD_TRANSCEIVE) _ _ _ hi herr]
      exact ⟨fun _ => ⟨rfl, rfl⟩, fun h => absurd rfl h⟩

theorem head?_eq_some_getD (l : List Nat) (h : l ≠ []) : l.head? = some (l.getD 0 0) := by
  cases l with
  | nil => exact absurd rfl h
  | cons a t => rfl

theorem take4_of_length5 (d : List Nat) (h : d.length = 5) :
    d.take 4 = [d.getD 0 0, d.getD 1 0, d.getD 2 0, d.getD 3 0] := by
  match d, h with
  | [a, b, c, e, f], _ => rfl

/-- C2: `request` succeeds (status 0) iff the executor outcome is not
status 2 and the returned bit length is exactly 16; on success the reported
card type is the first response byte; and every other outcome yields the
failure status 2. -/
theorem request_success_iff (env : ChipEnv) (m : Nat) (s0 : BusState) :
    ((request env m s0).1.status = 0 ↔
        (toCard env PCD_TRANSCEIVE [m] (writeRegister BitFramingReg 0x07 s0)).1.status ≠ 2 ∧
          (toCard env PCD_TRANSCEIVE [m] (writeRegister BitFramingReg 0x07 s0)).1.backLen = 16) ∧
      ((request env m s0).1.status = 0 →
        (request env m s0).1.cardType =
          some ((toCard env PCD_TRANSCEIVE [m]
            (writeRegister BitFramingReg 0x07 s0)).1.data.getD 0 0)) ∧
      ((request env m s0).1.status = 0 ∨ (request env m s0).1.status = 2) := by
  have hcases := toCard_transceive_cases env [m] (writeRegister BitFramingReg 0x07 s0)
  simp only [request]
  set tc := (toCard env PCD_TRANSCEIVE [m] (writeRegister BitFramingReg 0x07 s0)).1 with htc
  by_cases hc : tc.status ≠ 2 ∧ tc.backLen = 0x10
  · rw [if_pos hc]
    refine ⟨by simp [hc], fun _ => ?_, Or.inl rfl⟩
    have hne : tc.data ≠ [] := by
      have hlen := (hcases.2 hc.1).1
      intro hnil
      rw [hnil] at hlen
      simp at hlen
    rw [head?_eq_some_getD tc.data hne]
  · rw [if_neg hc]
    refine ⟨by simp [hc], fun h => ?_, Or.inr rfl⟩
    simp at h
  
/-- C9: whenever `request` succeeds the executor's Transceive path has read
at least one byte, so `result.data[0]` is in bounds and the card type is
that byte; on executor failure paths (status 2: timeout or protocol error)
the byte sequence is empty and the type field comes from indexing an empty
list (`none`, TypeScript `undefined`). -/
theorem request_type_indexing (env : ChipEnv) (m : Nat) (s0 : BusState) :
    ((request env m s0).1.status = 0 →
        (toCard env PCD_TRANSCEIVE [m] (writeRegister BitFramingReg 0x07 s0)).1.data ≠ [] ∧
          (request env m s0).1.cardType =
            some ((toCard env PCD_TRANSCEIVE [m]
              (writeRegister BitFramingReg 0x07 s0)).1.data.getD 0 0)) ∧
      ((toCard env PCD_TRANSCEIVE [m] (writeRegister BitFramingReg 0x07 s0)).1.status = 2 →
        (toCard env PCD_TRANSCEIVE [m] (writeRegister BitFramingReg 0x07 s0)).1.data = [] ∧
          (request env m s0).1.cardType = none) := by
  have hcases := toCard_transceive_cases env [m] (writeRegister BitFramingReg 0x07 s0)
  simp only [request]
  set tc := (toCard env PCD_TRANSCEIVE [m] (writeRegister BitFramingReg 0x07 s0)).1 with htc
  constructor
  · intro h
    by_cases hc : tc.status ≠ 2 ∧ tc.backLen = 0x10
    · have hne : tc.data ≠ [] := by
        have hlen := (hcases.2 hc.1).1
        intro hnil
        rw [hnil] at hlen
        simp at hlen
      refine ⟨hne, ?_⟩
      rw [head?_eq_some_getD tc.data hne]
    · rw [if_neg hc] at h
      simp at h
  · intro h2
    have hdata := (hcases.1 h2).1
    refine ⟨hdata, ?_⟩
    rw [hdata]
    rfl

end MFRC522

namespace MFRC522

/-- C1: anti-collision succeeds (status 0) iff the executor outcome is
status 0 (Ok), exactly 5 response bytes came back, and the XOR of the first
4 bytes equals the 5th; and on success the yielded UID is exactly the first
4 response bytes. -/
theorem anticoll_success_iff (env : ChipEnv) (s0 : BusState) :
    ((anticoll env s0).1.status = 0 ↔
        (toCard env PCD_TRANSCEIVE [PICC_ANTICOLL, 0x20]
            (writeRegister BitFramingReg 0x00 s0)).1.status = 0 ∧
          (toCard env PCD_TRANSCEIVE [PICC_ANTICOLL, 0x20]
            (writeRegister BitFramingReg 0x00 s0)).1.data.length = 5 ∧
          ((toCard env PCD_TRANSCEIVE [PICC_ANTICOLL, 0x20]
              (writeRegister BitFramingReg 0x00 s0)).1.data.getD 0 0 ^^^
            (toCard env PCD_TRANSCEIVE [PICC_ANTICOLL, 0x20]
              (writeRegister BitFramingReg 0x00 s0)).1.data.getD 1 0 ^^^
            (toCard env PCD_TRANSCEIVE [PICC_ANTICOLL, 0x20]
              (writeRegister BitFramingReg 0x00 s0)).1.data.getD 2 0 ^^^
            (toCard env PCD_TRANSCEIVE [PICC_ANTICOLL, 0x20]
              (writeRegister BitFramingReg 0x00 s0)).1.data.getD 3 0) =
            (toCard env PCD_TRANSCEIVE [PICC_ANTICOLL, 0x20]
              (writeRegister BitFramingReg 0x00 s0)).1.data.getD 4 0) ∧
      ((anticoll env s0).1.status = 0 →
        (anticoll env s0).1.uid =
          (toCard env PCD_TRANSCEIVE [PICC_ANTICOLL, 0x20]
            (writeRegister BitFramingReg 0x00 s0)).1.data.take 4) := by
  simp only [anticoll]
  set tc := (toCard env PCD_TRANSCEIVE [PICC_ANTICOLL, 0x20]
    (writeRegister BitFramingReg 0x00 s0)).1 with htc
  by_cases h1 : tc.status = 0 ∧ tc.data.length = 5
  · rw [if_pos h1]
    by_cases h2 : (tc.data.getD 0 0 ^^^ tc.data.getD 1 0 ^^^ tc.data.getD 2 0 ^^^
        tc.data.getD 3 0) = tc.data.getD 4 0
    · rw [if_pos h2]
      refine ⟨⟨fun _ => ⟨h1.1, h1.2, h2⟩, fun _ => rfl⟩, fun _ => ?_⟩
      rw [take4_of_length5 tc.data h1.2]
    · rw [if_neg h2]
      refine ⟨⟨fun h => ?_, fun hx => absurd hx.2.2 h2⟩, fun h => ?_⟩ <;> simp at h
  · rw [if_neg h1]
    constructor
    · constructor
      · intro h
        simp at h
      · rintro ⟨ha, hb, _⟩
        exact absurd ⟨ha, hb⟩ h1
    · intro h
      simp at h

/-- Counterexample to C5 as stated: on a checksum mismatch (executor data
0x12 0x34 0x56 0x78 0x00, whose XOR of the first four bytes is 0x08, not
0x00) `anticoll` reports failure, yet its `uid` field still holds the 4
data bytes — an identifier is produced alongside the failure status. -/
theorem anticoll_mismatch_uid_counterexample :
    (anticoll envBcc ⟨0, []⟩).1.status ≠ 0 ∧
      (anticoll envBcc ⟨0, []⟩).1.uid = [0x12, 0x34, 0x56, 0x78] ∧
      (anticoll envBcc ⟨0, []⟩).1.uid.length = 4 := by
  refine ⟨by decide, by decide, by decide⟩

/-- C5 (amended): a 4-byte UID is yielded with success status only when the
exchange succeeds and its checksum validates; on a checksum mismatch the
status is the failure value 2 but the `uid` field still holds the first 4
response bytes; on any other failure (executor failure or a response of the
wrong length) the `uid` field is empty. -/
theorem anticoll_uid_failure_contents (env : ChipEnv) (s0 : BusState) :
    ((anticoll env s0).1.status = 0 →
        (anticoll env s0).1.uid.length = 4 ∧
          (toCard env PCD_TRANSCEIVE [PICC_ANTICOLL, 0x20]
              (writeRegister BitFramingReg 0x00 s0)).1.status = 0 ∧
          (toCard env PCD_TRANSCEIVE [PICC_ANTICOLL, 0x20]
            (writeRegister BitFramingReg 0x00 s0)).1.data.length = 5) ∧
      (∀ _h : (toCard env PCD_TRANSCEIVE [PICC_ANTICOLL, 0x20]
            (writeRegister BitFramingReg 0x00 s0)).1.status = 0 ∧
          (toCard env PCD_TRANSCEIVE [PICC_ANTICOLL, 0x20]
            (writeRegister BitFramingReg 0x00 s0)).1.data.length = 5,
        ((toCard env PCD_TRANSCEIVE [PICC_ANTICOLL, 0x20]
              (writeRegister BitFramingReg 0x00 s0)).1.data.getD 0 0 ^^^
            (toCard env PCD_TRANSCEIVE [PICC_ANTICOLL, 0x20]
              (writeRegister BitFramingReg 0x00 s0)).1.data.getD 1 0 ^^^
            (toCard env PCD_TRANSCEIVE [PICC_ANTICOLL, 0x20]
              (writeRegister BitFramingReg 0x00 s0)).1.data.getD 2 0 ^^^
            (toCard env PCD_TRANSCEIVE [PICC_ANTICOLL, 0x20]
              (writeRegister BitFramingReg 0x00 s0)).1.data.getD 3 0) ≠
            (toCard env PCD_TRANSCEIVE [PICC_ANTICOLL, 0x20]
              (writeRegister BitFramingReg 0x00 s0)).1.data.getD 4 0 →
        (anticoll env s0).1.status = 2 ∧
          (anticoll env s0).1.uid =
            (toCard env PCD_TRANSCEIVE [PICC_ANTICOLL, 0x20]
              (writeRegister BitFramingReg 0x00 s0)).1.data.take 4) ∧
      (¬ ((toCard env PCD_TRANSCEIVE [PICC_ANTICOLL, 0x20]
              (writeRegister BitFramingReg 0x00 s0)).1.status = 0 ∧
          (toCard env PCD_TRANSCEIVE [PICC_ANTICOLL, 0x20]
            (writeRegister BitFramingReg 0x00 s0)).1.data.length = 5) →
        (anticoll env s0).1.status = 2 ∧ (anticoll env s0).1.uid = []) := by
  simp only [anticoll]
  set tc := (toCard env PCD_TRANSCEIVE [PICC_ANTICOLL, 0x20]
    (writeRegister BitFramingReg 0x00 s0)).1 with htcdef
  by_cases h1 : tc.status = 0 ∧ tc.data.length = 5
  · rw [if_pos h1]
    refine ⟨fun _ => ⟨rfl, h1⟩, fun _ h2 => ?_, fun h => absurd h1 h⟩
    rw [if_neg h2, take4_of_length5 tc.data h1.2]
    exact ⟨rfl, rfl⟩
  · rw [if_neg h1]
    refine ⟨fun h => ?_, fun htc _ => absurd htc h1, fun _ => ⟨rfl, rfl⟩⟩
    simp at h

end MFRC522

namespace MFRC522

/-- The characters one byte contributes to the UID string: "0" when the byte
is below 16, then the byte's decimal digits, all uppercased. -/
def decByteChars (b : Nat) : List Char :=
  ((if b < 16 then ['0'] else []) ++ (Nat.repr b).data).map Char.toUpper

/-- Per-byte chunks concatenated in order. -/
def chunksFlat (g : Nat → List Char) : List Nat → List Char
  | [] => []
  | b :: rest => g b ++ chunksFlat g rest

theorem foldl_digits_map_toUpper (uid : List Nat) :
    ∀ acc : List Char,
      ((uid.foldl (fun hex byte =>
          (hex ++ (if byte < 16 then ['0'] else [])) ++ (Nat.repr byte).data) acc)).map
          Char.toUpper =
        acc.map Char.toUpper ++ chunksFlat decByteChars uid := by
  induction uid with
  | nil => intro acc; simp [chunksFlat]
  | cons b rest ih =>
    intro acc
    simp only [List.foldl_cons]
    rw [ih]
    simp [decByteChars, chunksFlat, List.map_append, List.append_assoc]

theorem uidToString_eq_chunksFlat (uid : List Nat) :
    uidToString uid = chunksFlat decByteChars uid := by
  have h := foldl_digits_map_toUpper uid []
  simpa [uidToString] using h

theorem hexRender_length : ∀ l : List Nat, (hexRender l).length = 2 * l.length := by
  intro l
  induction l with
  | nil => rfl
  | cons b t ih =>
    simp [hexRender, ih]
    omega

set_option maxRecDepth 4096 in
theorem decByteChars_length_ge : ∀ b, b < 256 → 2 ≤ (decByteChars b).length := by
  decide

set_option maxRecDepth 4096 in
theorem decByteChars_length_two_or_three :
    ∀ b, b < 256 → (decByteChars b).length = 2 ∨ (decByteChars b).length = 3 := by
  decide

set_option maxRecDepth 4096 in
theorem decByteChars_eq_hex_imp :
    ∀ b, b < 256 → (decByteChars b = [hexDigit (b / 16), hexDigit (b % 16)] → b ≤ 9) := by
  decide

theorem chunksFlat_dec_length_ge :
    ∀ l : List Nat, (∀ b ∈ l, b < 256) →
      2 * l.length ≤ (chunksFlat decByteChars l).length := by
  intro l
  induction l with
  | nil => intro _; simp [chunksFlat]
  | cons b t ih =>
    intro hlt
    have hb := decByteChars_length_ge b (hlt b (List.mem_cons_self b t))
    have ht := ih (fun x hx => hlt x (List.mem_cons_of_mem b hx))
    simp only [chunksFlat, List.length_append, List.length_cons]
    omega

theorem chunksFlat_eq_hexRender_le9 :
    ∀ l : List Nat, (∀ b ∈ l, b < 256) → chunksFlat decByteChars l = hexRender l →
      ∀ b ∈ l, b ≤ 9 := by
  intro l
  induction l with
  | nil => intro _ _ b hb; exact absurd hb (List.not_mem_nil b)
  | cons b t ih =>
    intro hlt heq c hc
    have hb : b < 256 := hlt b (List.mem_cons_self b t)
    have heq' : decByteChars b ++ chunksFlat decByteChars t =
        [hexDigit (b / 16), hexDigit (b % 16)] ++ hexRender t := heq
    rcases decByteChars_length_two_or_three b hb with h2 | h3
    · have hinj := List.append_inj heq' (by simp [h2])
      rcases List.mem_cons.mp hc with rfl | hct
      · exact decByteChars_eq_hex_imp c hb hinj.1
      · exact ih (fun x hx => hlt x (List.mem_cons_of_mem b hx)) hinj.2 c hct
    · exfalso
      have hlen := congrArg List.length heq'
      have hge := chunksFlat_dec_length_ge t (fun x hx => hlt x (List.mem_cons_of_mem b hx))
      have hhex := hexRender_length t
      simp only [List.length_append, List.length_cons, List.length_nil, h3] at hlen
      omega

/-- C10: the `readUID` formatting appends each byte's decimal `toString()`
digits (with a "0" prefix for bytes below 16), not hexadecimal digits: the
byte 0xAB contributes "171", and for every UID (of bytes) containing a byte
above 9 the produced string differs from the uppercase hexadecimal rendering
of the identifier. -/
theorem readUID_decimal_not_hex :
    uidToString [0xAB] = ['1', '7', '1'] ∧
      ∀ uid : List Nat, (∀ b ∈ uid, b < 256) → (∃ b ∈ uid, 9 < b) →
        uidToString uid ≠ hexRender uid := by
  refine ⟨by decide, ?_⟩
  rintro uid hlt ⟨b, hmem, hgt⟩ heq
  rw [uidToString_eq_chunksFlat] at heq
  have hle := chunksFlat_eq_hexRender_le9 uid hlt heq b hmem
  omega

end MFRC522
